import Mathlib

/-!
Verification of the SceneSage core (src/scenesage.py) against its
natural-language specification.

Shallow embedding notes.  Timestamps are modelled as exact millisecond
counts: the code stores pysrt SubRipTime values and compares each pause
through a format/parse round-trip that is exact at millisecond
resolution, and the float total_seconds() comparison against an integer
threshold m agrees with the exact integer comparison
pause_ms >= 1000 * m (the quotient microseconds / 10^6 never rounds
across an integer for in-range subtitle times).  Fallible code returns
Except, with one constructor per Python exception that can be raised.
-/

/-- A subtitle entry as consumed by detect_scenes: start and end times in
milliseconds and the caption text. -/
structure Caption where
  start : Nat
  «end» : Nat
  text : String
deriving DecidableEq

instance : Inhabited Caption := ⟨⟨0, 0, ""⟩⟩

/-- A scene dict as built by detect_scenes: start, end, text. -/
structure Scene where
  start : Nat
  «end» : Nat
  text : String
deriving DecidableEq

/-- The error raised by the segmentation entry point: subtitles[0] on an
empty SubRipFile raises IndexError (asserted by test_empty_subtitles). -/
inductive SegError where
  | indexError
deriving DecidableEq

/-- The pause between a caption and its successor in milliseconds,
current.start - prev.end; negative when the captions overlap. -/
def pause_ms (prev c : Caption) : Int := (c.start : Int) - (prev.«end» : Int)

/-- The else-branch of the loop body of detect_scenes: extend the current
scene, overwriting its end with the latest caption end and appending the
caption text after a single space. -/
def scene_merge (cur : Scene) (c : Caption) : Scene :=
  { start := cur.start, «end» := c.«end», text := cur.text ++ " " ++ c.text }

/-- The loop of detect_scenes over the captions after the first.  The test
pause >= min_pause on seconds is rendered exactly on milliseconds as
min_pause * 1000 <= pause_ms. -/
def detect_scenes_loop (min_pause : Int) (prev : Caption) (cur : Scene) :
    List Caption → List Scene
  | [] => [cur]
  | c :: cs =>
    if min_pause * 1000 ≤ pause_ms prev c then
      cur :: detect_scenes_loop min_pause c ⟨c.start, c.«end», c.text⟩ cs
    else
      detect_scenes_loop min_pause c (scene_merge cur c) cs

/-- detect_scenes from src/scenesage.py: seed the current scene from
subtitles[0] (IndexError on empty input), then fold the loop over the
remaining captions; the final in-progress scene is appended
unconditionally. -/
def detect_scenes (subtitles : List Caption) (min_pause : Int) :
    Except SegError (List Scene) :=
  match subtitles with
  | [] => .error .indexError
  | c :: cs => .ok (detect_scenes_loop min_pause c ⟨c.start, c.«end», c.text⟩ cs)

/-- Pauses between consecutive captions of prev :: rest, in milliseconds. -/
def pauses_from (prev : Caption) : List Caption → List Int
  | [] => []
  | c :: cs => pause_ms prev c :: pauses_from c cs

/-- The pause list p_1 .. p_{n-1} of a caption sequence, in milliseconds. -/
def pauses : List Caption → List Int
  | [] => []
  | c :: cs => pauses_from c cs

deriving instance DecidableEq for Except

/-- Join a list of strings with single spaces, as the text accumulation
text += " " + c.text does. -/
def joinSpace : List String → String
  | [] => ""
  | t :: ts => ts.foldl (fun acc s => acc ++ " " ++ s) t

/-- Failures surfaced by process_scene_chunks_async: the ValueError raised
by range(0, n, 0) (range() arg 3 must not be zero), or an exception
propagated out of an analyze call. -/
inductive PyError (ε : Type) where
  | valueError
  | exception (e : ε)
deriving DecidableEq

/-- Ordered fallible mapping: run the calls in submission order, collect
the results positionally, and propagate the first failure with no
partial output.  This is the deterministic rendering of the
asyncio.gather barrier used per chunk and of the sequential chunk
loop. -/
def mapE {σ ε α : Type} (f : σ → Except ε α) : List σ → Except ε (List α)
  | [] => .ok []
  | a :: l =>
    match f a with
    | .error e => .error e
    | .ok b =>
      match mapE f l with
      | .error e => .error e
      | .ok bs => .ok (b :: bs)

/-- Python list slicing l[a:b] with unit step: negative bounds count from
the end, bounds are clamped to the list length. -/
def pySlice {σ : Type} (l : List σ) (a b : Int) : List σ :=
  let n : Int := l.length
  let a2 := if a < 0 then max (n + a) 0 else min a n
  let b2 := if b < 0 then max (n + b) 0 else min b n
  (l.take b2.toNat).drop a2.toNat

/-- Python range(0, stop, step) for a positive step: the multiples of step
below stop, in increasing order. -/
def pyRange (stop step : Nat) : List Nat :=
  (List.range ((stop + step - 1) / step)).map (fun k => k * step)

/-- process_chunk from src/scenesage.py: submit every scene of the chunk
to the analyze call and gather the results in submission order; any
failure fails the whole gather with no partial chunk results. -/
def process_chunk {σ ε α : Type} (f : σ → Except ε α) (chunk : List σ) :
    Except ε (List α) :=
  mapE f chunk

/-- process_scene_chunks_async from src/scenesage.py.  The scene list is
walked by for i in range(0, total_scenes, chunk_size - overlap): a zero
step raises ValueError from range, a negative step makes the range empty
(so the loop body never runs and the empty accumulator is returned), and
otherwise each chunk scenes[i : min(i + chunk_size, total_scenes)] is
processed in order, extending the accumulator with the chunk results. -/
def process_scene_chunks_async {σ ε α : Type} (scenes : List σ)
    (f : σ → Except ε α) (chunk_size overlap : Int) :
    Except (PyError ε) (List α) :=
  let total := scenes.length
  let step := chunk_size - overlap
  if step = 0 then .error .valueError
  else if step < 0 then .ok []
  else
    match mapE
        (fun (i : Nat) => process_chunk f
          (pySlice scenes (i : Int) (min ((i : Int) + chunk_size) (total : Int))))
        (pyRange total step.toNat) with
    | .error e => .error (.exception e)
    | .ok chunks => .ok chunks.join

/-- process_scene_chunks: the synchronous wrapper is semantically the
asynchronous function run to completion. -/
def process_scene_chunks {σ ε α : Type} (scenes : List σ)
    (f : σ → Except ε α) (chunk_size overlap : Int) :
    Except (PyError ε) (List α) :=
  process_scene_chunks_async scenes f chunk_size overlap

/-- The window starts described by the spec: i = 0, step, 2 * step, ...,
stopping once i reaches the scene count, i.e. the multiples of step
below len. -/
def specStarts (len step : Nat) : List Nat :=
  (List.range len).filter (fun i => i % step = 0)

/-- The windows described by the spec: scenes[i : min(i + chunkSize, len)]
for each window start i. -/
def specWindows {σ : Type} (scenes : List σ) (chunkSize step : Nat) :
    List (List σ) :=
  (specStarts scenes.length step).map
    (fun i => (scenes.take (min (i + chunkSize) scenes.length)).drop i)

/-- Zero-pad a natural number to at least two digits, as {:02d} does. -/
def pad2 (n : Nat) : String := if n < 10 then "0" ++ toString n else toString n

/-- Zero-pad a natural number to at least three digits, as {:03d} does. -/
def pad3 (n : Nat) : String :=
  if n < 10 then "00" ++ toString n
  else if n < 100 then "0" ++ toString n
  else toString n

/-- format_subrip_time from src/scenesage.py: HH:MM:SS,mmm with zero
padding, with the millisecond timestamp split into its SubRipTime
components. -/
def format_subrip_time (t : Nat) : String :=
  pad2 (t / 3600000) ++ ":" ++ pad2 (t / 60000 % 60) ++ ":"
    ++ pad2 (t / 1000 % 60) ++ "," ++ pad3 (t % 1000)

/-- A structured-output field of the parsed model reply: the parser may
yield a plain comma-separated string or already a list of strings. -/
inductive StrOrList where
  | str (s : String)
  | list (l : List String)
deriving DecidableEq

/-- The dict produced by the chain invocation for one scene. -/
structure ChainResult where
  summary : String
  characters : StrOrList
  mood : String
  cultural_refs : StrOrList
deriving DecidableEq

/-- The analyzed-scene record returned by analyze_scene_async. -/
structure AnalyzedScene where
  summary : String
  characters : List String
  mood : String
  cultural_refs : List String
  start : String
  «end» : String
  transcript : String
deriving DecidableEq

/-- Python str.strip on a character list: whitespace dropped from both
ends. -/
def stripChars (l : List Char) : List Char :=
  ((l.dropWhile Char.isWhitespace).reverse.dropWhile Char.isWhitespace).reverse

/-- Python str.split(",") on a character list: the comma-separated
components in order, empty components kept. -/
def splitCommas : List Char → List (List Char)
  | [] => [[]]
  | c :: cs =>
    match splitCommas cs with
    | [] => [[]]
    | g :: gs => if c = ',' then [] :: g :: gs else (c :: g) :: gs

/-- The post-processing applied to the characters and cultural_refs
fields of the chain result: a comma-separated string is split on
commas, each piece stripped, and falsy (empty) pieces dropped; a list is
passed through unchanged.  Strings are handled through their character
lists. -/
def normalize_list_field : StrOrList → List String
  | .str s =>
    (((splitCommas s.toList).map stripChars).filter
      (fun r => !r.isEmpty)).map (fun l => String.mk l)
  | .list l => l

/-- analyze_scene_async from src/scenesage.py, with the external chain
invocation abstracted by its outcome for the given scene.  On success
the string-or-list fields are normalized and the scene metadata
(formatted start and end, transcript) is attached; a chain failure is
re-raised, failing the call. -/
def analyze_scene_async {ε : Type} (scene : Scene)
    (chainResult : Except ε ChainResult) : Except ε AnalyzedScene :=
  match chainResult with
  | .error e => .error e
  | .ok r =>
    .ok { summary := r.summary
          characters := normalize_list_field r.characters
          mood := r.mood
          cultural_refs := normalize_list_field r.cultural_refs
          start := format_subrip_time scene.start
          «end» := format_subrip_time scene.«end»
          transcript := scene.text }

theorem detect_scenes_loop_length (m : Int) (rest : List Caption) :
    ∀ (prev : Caption) (cur : Scene),
    (detect_scenes_loop m prev cur rest).length
      = 1 + (pauses_from prev rest).countP (fun p => decide (m * 1000 ≤ p)) := by
  induction rest with
  | nil =>
    intro prev cur
    simp [detect_scenes_loop, pauses_from]
  | cons c cs ih =>
    intro prev cur
    by_cases h : m * 1000 ≤ pause_ms prev c
    · simp [detect_scenes_loop, pauses_from, h, ih, List.countP_cons]
      omega
    · simp [detect_scenes_loop, pauses_from, h, ih, List.countP_cons]

/-- C1: for every non-empty caption sequence, detect_scenes with threshold
m returns exactly 1 + the number of inter-caption pauses p_i with
p_i >= m seconds (rendered exactly in milliseconds as m * 1000 <= p_i);
the comparison is inclusive, so a pause exactly equal to m splits. -/
theorem detect_scenes_scene_count (c : Caption) (cs : List Caption) (m : Int) :
    ∃ scenes, detect_scenes (c :: cs) m = .ok scenes ∧
      scenes.length
        = 1 + (pauses (c :: cs)).countP (fun p => decide (m * 1000 ≤ p)) :=
  ⟨_, rfl, by
    simpa [pauses] using
      detect_scenes_loop_length m cs c ⟨c.start, c.«end», c.text⟩⟩

/-- C7: segmentation of the empty caption sequence raises an error
(IndexError from subtitles[0]) instead of returning an empty scene
list. -/
theorem detect_scenes_empty_error (m : Int) :
    detect_scenes [] m = .error SegError.indexError := rfl

theorem joinSpace_concat (l : List String) (hl : l ≠ []) (s : String) :
    joinSpace (l ++ [s]) = joinSpace l ++ " " ++ s := by
  cases l with
  | nil => exact absurd rfl hl
  | cons t ts => simp [joinSpace, List.foldl_append]

theorem heads_sublist {α : Type} [Inhabited α] (gs : List (List α))
    (h : ∀ g ∈ gs, g ≠ []) :
    List.Sublist (gs.map (fun g => g.headD default)) gs.join := by
  induction gs with
  | nil => simp
  | cons g gs ih =>
    have hg : g ≠ [] := h g (by simp)
    obtain ⟨a, t, rfl⟩ := List.exists_cons_of_ne_nil hg
    simp only [List.map_cons, List.join_cons, List.headD_cons, List.cons_append]
    exact List.Sublist.cons₂ a
      (((ih (fun x hx => h x (by simp [hx]))).trans (List.sublist_append_right t _)))

theorem detect_scenes_loop_partition (m : Int) (rest : List Caption) :
    ∀ (prev : Caption) (cur : Scene) (g : List Caption) (hg : g ≠ []),
      cur.start = (g.head hg).start →
      cur.text = joinSpace (g.map Caption.text) →
      prev = g.getLast hg →
      ∃ gs : List (List Caption),
        (∀ x ∈ gs, x ≠ []) ∧
        gs.join = g ++ rest ∧
        (detect_scenes_loop m prev cur rest).map Scene.text
          = gs.map (fun x => joinSpace (x.map Caption.text)) ∧
        (detect_scenes_loop m prev cur rest).map Scene.start
          = gs.map (fun x => (x.headD default).start) := by
  induction rest with
  | nil =>
    intro prev cur g hg hstart htext _
    obtain ⟨a, t, rfl⟩ := List.exists_cons_of_ne_nil hg
    refine ⟨[a :: t], by simp, by simp, ?_, ?_⟩
    · simp [detect_scenes_loop, htext]
    · simpa [detect_scenes_loop] using hstart
  | cons c cs ih =>
    intro prev cur g hg hstart htext hprev
    by_cases h : m * 1000 ≤ pause_ms prev c
    · obtain ⟨gs, hne, hjoin, htexts, hstarts⟩ :=
        ih c ⟨c.start, c.«end», c.text⟩ [c] (by simp) (by simp) (by simp [joinSpace])
          (by simp)
      obtain ⟨a, t, rfl⟩ := List.exists_cons_of_ne_nil hg
      refine ⟨(a :: t) :: gs, ?_, ?_, ?_, ?_⟩
      · intro x hx
        rcases List.mem_cons.mp hx with rfl | hx'
        · simp
        · exact hne x hx'
      · simp [hjoin]
      · simp only [detect_scenes_loop, if_pos h, List.map_cons, htext, htexts]
      · simp only [detect_scenes_loop, if_pos h, List.map_cons, hstarts,
          List.headD_cons]
        exact congrArg (· :: _) (by simpa using hstart)
    · obtain ⟨a, t, rfl⟩ := List.exists_cons_of_ne_nil hg
      obtain ⟨gs, hne, hjoin, htexts, hstarts⟩ :=
        ih c (scene_merge cur c) ((a :: t) ++ [c]) (by simp)
          (by simpa [scene_merge] using hstart)
          (by
            simp only [scene_merge, List.map_append, List.map_cons,
              List.map_nil]
            rw [joinSpace_concat _ (by simp)]
            simp [htext])
          (by simp [List.getLast_append])
      refine ⟨gs, hne, ?_, ?_, ?_⟩
      · rw [hjoin]; simp
      · simpa only [detect_scenes_loop, if_neg h] using htexts
      · simpa only [detect_scenes_loop, if_neg h] using hstarts

/-- C5: for every non-empty caption sequence sorted by start, detect_scenes
returns at least one scene, the scenes are ordered by start, and the
caption list splits into consecutive non-empty groups, one per scene in
order, whose texts joined by single spaces are exactly the scene texts
(so every caption text lands in exactly one scene, in original order). -/
theorem detect_scenes_partition (c : Caption) (cs : List Caption) (m : Int)
    (hsorted : List.Pairwise (fun a b : Caption => a.start ≤ b.start) (c :: cs)) :
    ∃ scenes, detect_scenes (c :: cs) m = .ok scenes ∧
      1 ≤ scenes.length ∧
      List.Pairwise (fun a b : Scene => a.start ≤ b.start) scenes ∧
      ∃ gs : List (List Caption),
        (∀ g ∈ gs, g ≠ []) ∧
        gs.join = c :: cs ∧
        scenes.map Scene.text = gs.map (fun g => joinSpace (g.map Caption.text)) := by
  obtain ⟨gs, hne, hjoin, htexts, hstarts⟩ :=
    detect_scenes_loop_partition m cs c ⟨c.start, c.«end», c.text⟩ [c] (by simp)
      (by simp) (by simp [joinSpace]) (by simp)
  have hjoin' : gs.join = c :: cs := by simpa using hjoin
  refine ⟨_, rfl, ?_, ?_, gs, hne, hjoin', htexts⟩
  · have := detect_scenes_loop_length m cs c ⟨c.start, c.«end», c.text⟩
    omega
  · have hsub : List.Sublist
        ((detect_scenes_loop m c ⟨c.start, c.«end», c.text⟩ cs).map Scene.start)
        ((c :: cs).map Caption.start) := by
      rw [hstarts, ← hjoin']
      have hmm : gs.map (fun x => (x.headD default).start)
          = (gs.map (fun x => x.headD default)).map Caption.start := by
        simp [List.map_map]
      rw [hmm]
      exact (heads_sublist gs hne).map Caption.start
    have hp : List.Pairwise (· ≤ ·) ((c :: cs).map Caption.start) :=
      List.pairwise_map.mpr hsorted
    exact List.pairwise_map.mp (hp.sublist hsub)

theorem detect_scenes_partition_witness :
    List.Pairwise (fun a b : Caption => a.start ≤ b.start)
      [⟨22719, 26759, "a"⟩, ⟨26860, 31507, "b"⟩, ⟨36507, 40507, "c"⟩] ∧
    (∃ scenes,
      detect_scenes
        [⟨22719, 26759, "a"⟩, ⟨26860, 31507, "b"⟩, ⟨36507, 40507, "c"⟩] 4
        = .ok scenes ∧
      1 ≤ scenes.length ∧
      List.Pairwise (fun a b : Scene => a.start ≤ b.start) scenes ∧
      ∃ gs : List (List Caption),
        (∀ g ∈ gs, g ≠ []) ∧
        gs.join = [⟨22719, 26759, "a"⟩, ⟨26860, 31507, "b"⟩, ⟨36507, 40507, "c"⟩] ∧
        scenes.map Scene.text = gs.map (fun g => joinSpace (g.map Caption.text))) :=
  ⟨by decide,
    detect_scenes_partition ⟨22719, 26759, "a"⟩
      [⟨26860, 31507, "b"⟩, ⟨36507, 40507, "c"⟩] 4 (by decide)⟩

theorem detect_scenes_loop_start_le_end (m : Int) (rest : List Caption) :
    ∀ (prev : Caption) (cur : Scene),
      cur.start ≤ prev.start → cur.«end» = prev.«end» → prev.start ≤ prev.«end» →
      List.Chain' (fun a b : Caption => a.start ≤ b.start) (prev :: rest) →
      (∀ x ∈ rest, x.start ≤ x.«end») →
      ∀ s ∈ detect_scenes_loop m prev cur rest, s.start ≤ s.«end» := by
  induction rest with
  | nil =>
    intro prev cur h1 h2 h3 _ _ s hs
    have : s = cur := by simpa [detect_scenes_loop] using hs
    subst this
    omega
  | cons c cs ih =>
    intro prev cur h1 h2 h3 hchain hwf s hs
    have hpc : prev.start ≤ c.start := (List.chain'_cons.mp hchain).1
    have hchain' : List.Chain' (fun a b : Caption => a.start ≤ b.start) (c :: cs) :=
      (List.chain'_cons.mp hchain).2
    have hcwf : c.start ≤ c.«end» := hwf c (by simp)
    simp only [detect_scenes_loop] at hs
    by_cases h : m * 1000 ≤ pause_ms prev c
    · rw [if_pos h] at hs
      rcases List.mem_cons.mp hs with rfl | hs'
      · omega
      · exact ih c ⟨c.start, c.«end», c.text⟩ (le_refl _) rfl hcwf hchain'
          (fun x hx => hwf x (by simp [hx])) s hs'
    · rw [if_neg h] at hs
      exact ih c (scene_merge cur c)
        (by simpa [scene_merge] using h1.trans hpc) (by simp [scene_merge]) hcwf
        hchain' (fun x hx => hwf x (by simp [hx])) s hs

/-- C9 (amended): for every non-empty caption sequence sorted by start in
which every caption itself satisfies start <= end, every scene returned
by detect_scenes satisfies start <= end. -/
theorem detect_scenes_start_le_end (c : Caption) (cs : List Caption) (m : Int)
    (hsorted : List.Chain' (fun a b : Caption => a.start ≤ b.start) (c :: cs))
    (hwf : ∀ x ∈ c :: cs, x.start ≤ x.«end») :
    ∃ scenes, detect_scenes (c :: cs) m = .ok scenes ∧
      ∀ s ∈ scenes, s.start ≤ s.«end» :=
  ⟨_, rfl,
    detect_scenes_loop_start_le_end m cs c ⟨c.start, c.«end», c.text⟩ (le_refl _)
      rfl (hwf c (by simp)) hsorted (fun x hx => hwf x (by simp [hx]))⟩

theorem detect_scenes_start_le_end_witness :
    List.Chain' (fun a b : Caption => a.start ≤ b.start)
      [⟨22719, 26759, "a"⟩, ⟨26860, 31507, "b"⟩] ∧
    (∀ x ∈ [(⟨22719, 26759, "a"⟩ : Caption), ⟨26860, 31507, "b"⟩],
      x.start ≤ x.«end») ∧
    (∃ scenes,
      detect_scenes [⟨22719, 26759, "a"⟩, ⟨26860, 31507, "b"⟩] 4 = .ok scenes ∧
      ∀ s ∈ scenes, s.start ≤ s.«end») :=
  ⟨by simp [List.chain'_cons], by decide,
    detect_scenes_start_le_end ⟨22719, 26759, "a"⟩ [⟨26860, 31507, "b"⟩] 4
      (by simp [List.chain'_cons]) (by decide)⟩

/-- C9 fails exactly as stated: a single caption (trivially sorted by
start) whose end precedes its start yields one scene with start > end;
detect_scenes copies the caption fields without checking start <= end. -/
theorem detect_scenes_start_gt_end_on_malformed :
    List.Chain' (fun a b : Caption => a.start ≤ b.start) [⟨5000, 1000, "x"⟩] ∧
    ∃ scenes, detect_scenes [⟨5000, 1000, "x"⟩] 4 = .ok scenes ∧
      ∃ s ∈ scenes, ¬ s.start ≤ s.«end» :=
  ⟨by simp, [⟨5000, 1000, "x"⟩], rfl, ⟨5000, 1000, "x"⟩, by decide, by decide⟩

/-- C6 (amended): with a nonnegative threshold, a next caption that
overlaps the previous one (its start is before the previous caption end)
never causes a split: the loop takes the merge branch, and the merged
scene end is the overlapping caption own end value (the end of the
latest caption), which need not be the later of the two end values. -/
theorem detect_scenes_overlap_merge (m : Int) (prev : Caption) (cur : Scene)
    (c : Caption) (cs : List Caption) (hm : 0 ≤ m)
    (hov : c.start < prev.«end») :
    detect_scenes_loop m prev cur (c :: cs)
        = detect_scenes_loop m c (scene_merge cur c) cs ∧
      (scene_merge cur c).«end» = c.«end» := by
  refine ⟨?_, rfl⟩
  have h : ¬ m * 1000 ≤ pause_ms prev c := by
    simp only [pause_ms]
    omega
  simp [detect_scenes_loop, h]

theorem detect_scenes_overlap_merge_witness :
    (0 : Int) ≤ 4 ∧ (1000 : Nat) < 10000 ∧
    (detect_scenes_loop 4 ⟨0, 10000, "A"⟩ ⟨0, 10000, "A"⟩
        [(⟨1000, 2000, "B"⟩ : Caption)]
        = detect_scenes_loop 4 ⟨1000, 2000, "B"⟩
            (scene_merge ⟨0, 10000, "A"⟩ ⟨1000, 2000, "B"⟩) [] ∧
      (scene_merge (⟨0, 10000, "A"⟩ : Scene) (⟨1000, 2000, "B"⟩ : Caption)).«end»
        = 2000) :=
  ⟨by decide, by decide,
    detect_scenes_overlap_merge 4 ⟨0, 10000, "A"⟩ ⟨0, 10000, "A"⟩
      ⟨1000, 2000, "B"⟩ [] (by decide) (by decide)⟩

/-- C6 fails as stated: for the start-sorted overlapping captions
(0 ms to 10000 ms, "A") and (1000 ms to 2000 ms, "B") with threshold 4,
the single merged scene ends at 2000 ms, the end of the latest caption,
and not at the later of the two end values (10000 ms). -/
theorem detect_scenes_overlap_end_not_max :
    detect_scenes [⟨0, 10000, "A"⟩, ⟨1000, 2000, "B"⟩] 4
        = .ok [⟨0, 2000, "A B"⟩] ∧
      ((⟨0, 2000, "A B"⟩ : Scene)).«end» ≠ max 10000 2000 := by
  refine ⟨?_, by decide⟩
  decide

theorem mapE_congr_ok {σ ε α : Type} (f : σ → Except ε α) (g : σ → α)
    (l : List σ) (h : ∀ a ∈ l, f a = .ok (g a)) :
    mapE f l = .ok (l.map g) := by
  induction l with
  | nil => rfl
  | cons a l ih =>
    simp [mapE, h a (by simp), ih (fun x hx => h x (by simp [hx]))]

theorem mapE_error_of_mem {σ ε α : Type} (f : σ → Except ε α) (l : List σ)
    (x : σ) (hx : x ∈ l) (e : ε) (he : f x = .error e) :
    ∃ e2, mapE f l = .error e2 := by
  induction l with
  | nil => cases hx
  | cons a l ih =>
    rcases List.mem_cons.mp hx with rfl | hx2
    · exact ⟨e, by simp [mapE, he]⟩
    · cases hfa : f a with
      | error e3 => exact ⟨e3, by simp [mapE, hfa]⟩
      | ok b =>
        obtain ⟨e2, h2⟩ := ih hx2
        exact ⟨e2, by simp [mapE, hfa, h2]⟩

theorem pyRange_eq_specStarts (stop step : Nat) (hstep : 0 < step) :
    pyRange stop step = specStarts stop step := by
  induction stop with
  | zero =>
    have h0 : (step - 1) / step = 0 := Nat.div_eq_of_lt (by omega)
    simp [pyRange, specStarts, h0]
  | succ n ih =>
    have harith : n + 1 + step - 1 = (n + step - 1) + 1 := by omega
    have harith2 : n + step - 1 + 1 = n + step := by omega
    have hsucc : (n + 1 + step - 1) / step
        = (n + step - 1) / step + if step ∣ n + step then 1 else 0 := by
      rw [harith, Nat.succ_div, harith2]
    unfold pyRange specStarts at ih ⊢
    rw [List.range_succ, List.filter_append, hsucc]
    by_cases hd : step ∣ n
    · obtain ⟨k, hk⟩ := hd
      have hq : (n + step - 1) / step = k := by
        subst hk
        have h1 : step * k + step - 1 = step * k + (step - 1) := by omega
        rw [h1, Nat.mul_add_div hstep, Nat.div_eq_of_lt (by omega)]
        omega
      have hdvd2 : step ∣ n + step := ⟨k + 1, by rw [hk]; ring⟩
      have hn : n % step = 0 := by simp [hk, Nat.mul_mod_right]
      rw [hq] at ih
      rw [if_pos hdvd2, hq, List.range_succ, List.map_append, ih]
      have hkn : k * step = n := by rw [hk, Nat.mul_comm]
      simp [hn, hkn]
    · have hdvd2 : ¬ step ∣ n + step := fun h =>
        hd (by have h5 := Nat.dvd_sub' h (dvd_refl step); simpa using h5)
      have hn : ¬ n % step = 0 := fun h => hd (Nat.dvd_of_mod_eq_zero h)
      rw [if_neg hdvd2, Nat.add_zero, ih]
      simp [hn]

theorem pySlice_nonneg {σ : Type} (scenes : List σ) (i : Nat) (cs : Int)
    (hcs : 0 ≤ cs) :
    pySlice scenes (i : Int) (min ((i : Int) + cs) (scenes.length : Int))
      = (scenes.take (min (i + cs.toNat) scenes.length)).drop i := by
  unfold pySlice
  have h1 : ¬ ((i : Int) < 0) := by omega
  have h2 : ¬ (min ((i : Int) + cs) ((scenes.length : Nat) : Int) < 0) := by
    omega
  simp only [if_neg h1, if_neg h2]
  have h3 : (min ((i : Int)) ((scenes.length : Nat) : Int)).toNat
      = min i scenes.length := by omega
  have h4 : (min ((i : Int) + cs) ((scenes.length : Nat) : Int)).toNat
      = min (i + cs.toNat) scenes.length := by omega
  rw [min_assoc, min_self, h3, h4]
  rcases le_or_lt i scenes.length with hle | hlt
  · rw [min_eq_left hle]
  · rw [min_eq_right hlt.le]
    rw [List.drop_eq_nil_of_le (by rw [List.length_take]; omega),
      List.drop_eq_nil_of_le (by rw [List.length_take]; omega)]

theorem process_windows_eq {σ : Type} (scenes : List σ) (cs step : Int)
    (hcs : 0 ≤ cs) (hstep : 0 < step) :
    (pyRange scenes.length step.toNat).map
        (fun (i : Nat) => pySlice scenes (i : Int)
          (min ((i : Int) + cs) (scenes.length : Int)))
      = specWindows scenes cs.toNat step.toNat := by
  rw [pyRange_eq_specStarts _ _ (by omega)]
  unfold specWindows
  exact List.map_congr_left (fun i _ => pySlice_nonneg scenes i cs hcs)

/-- C2 (amended): for chunk_size >= 2 and 0 <= overlap < chunk_size and an
analyze call that always succeeds, process_scene_chunks_async processes
exactly the windows scenes[i : min(i + chunk_size, len)] for i = 0,
step, 2 * step, ... with step = chunk_size - overlap, stopping once
i >= len, and returns the concatenation of the per-window results in
window order and intra-window submission order, so scenes in overlap
regions appear once per window containing them.  For 7 scenes with
chunk_size 5 and overlap 2 this means the three windows [0:5], [3:7]
and [6:7] (not only [0:5] and [3:7]) and an output of length 10 with
the scenes at indices 3, 4 and 6 appearing twice. -/
theorem process_scene_chunks_windows_concat {σ ε α : Type} (scenes : List σ)
    (g : σ → α) (chunk_size overlap : Int) (h2 : 2 ≤ chunk_size)
    (h0 : 0 ≤ overlap) (hlt : overlap < chunk_size) :
    process_scene_chunks_async scenes
        (fun s => (Except.ok (g s) : Except ε α)) chunk_size overlap
      = .ok ((specWindows scenes chunk_size.toNat
              (chunk_size - overlap).toNat).map (fun w => w.map g)).join := by
  unfold process_scene_chunks_async
  simp only [if_neg (show ¬(chunk_size - overlap = 0) by omega),
    if_neg (show ¬(chunk_size - overlap < 0) by omega), process_chunk]
  rw [mapE_congr_ok _
      (fun (i : Nat) => (pySlice scenes (i : Int)
        (min ((i : Int) + chunk_size) (scenes.length : Int))).map g) _
      (fun i _ => mapE_congr_ok _ _ _ (fun a _ => rfl))]
  rw [show ((pyRange scenes.length (chunk_size - overlap).toNat).map
      (fun (i : Nat) => (pySlice scenes (i : Int)
        (min ((i : Int) + chunk_size) (scenes.length : Int))).map g))
    = ((pyRange scenes.length (chunk_size - overlap).toNat).map
        (fun (i : Nat) => pySlice scenes (i : Int)
          (min ((i : Int) + chunk_size) (scenes.length : Int)))).map
        (fun w => w.map g) from (List.map_map _ _ _).symm]
  rw [process_windows_eq scenes chunk_size (chunk_size - overlap) (by omega)
    (by omega)]

theorem process_scene_chunks_windows_concat_witness :
    (2 : Int) ≤ 5 ∧ (0 : Int) ≤ 2 ∧ (2 : Int) < 5 ∧
    process_scene_chunks_async [0, 1, 2, 3, 4, 5, 6]
        (fun s => (Except.ok s : Except Unit Nat)) 5 2
      = .ok ((specWindows [0, 1, 2, 3, 4, 5, 6] (5 : Int).toNat
              ((5 : Int) - 2).toNat).map
            (fun w => w.map (fun s => s))).join :=
  ⟨by decide, by decide, by decide,
    process_scene_chunks_windows_concat [0, 1, 2, 3, 4, 5, 6] (fun s => s) 5 2
      (by decide) (by decide) (by decide)⟩

/-- C2 fails exactly as stated in its concrete example: 7 scenes with
chunk_size 5 and overlap 2 are processed in three windows [0:5], [3:7]
and [6:7] (range(0, 7, 3) yields 0, 3, 6), so the output, of length 10,
is not the concatenation of results for the two windows [0:5] and [3:7]
alone, which would have length 9. -/
theorem process_scene_chunks_seven_scenes :
    process_scene_chunks_async [0, 1, 2, 3, 4, 5, 6]
        (fun n => (Except.ok n : Except Unit Nat)) 5 2
      = .ok [0, 1, 2, 3, 4, 3, 4, 5, 6, 6] ∧
    (Except.ok [0, 1, 2, 3, 4, 3, 4, 5, 6, 6]
        : Except (PyError Unit) (List Nat))
      ≠ .ok ([0, 1, 2, 3, 4] ++ [3, 4, 5, 6]) :=
  ⟨by decide, by decide⟩

/-- C3 (amended): when overlap >= chunk_size no configuration validation
happens and the loop still terminates, but the outcome differs from a
configuration error: for overlap = chunk_size the zero range step raises
ValueError before any analyze call, while for overlap > chunk_size the
range is empty, so the call silently returns the empty result, again
without consulting the analyze callback. -/
theorem process_scene_chunks_step_nonpositive {σ ε α : Type}
    (scenes : List σ) (f : σ → Except ε α) (chunk_size overlap : Int)
    (h : chunk_size ≤ overlap) :
    process_scene_chunks_async scenes f chunk_size overlap
      = if chunk_size = overlap then .error .valueError else .ok [] := by
  unfold process_scene_chunks_async
  rcases eq_or_lt_of_le h with heq | hlt
  · simp [heq]
  · have h1 : ¬(chunk_size - overlap = 0) := by omega
    have h2 : chunk_size - overlap < 0 := by omega
    have h3 : ¬(chunk_size = overlap) := by omega
    simp only [if_neg h1, if_pos h2, if_neg h3]

theorem process_scene_chunks_step_nonpositive_witness :
    (2 : Int) ≤ 3 ∧
    process_scene_chunks_async [0, 1, 2]
        (fun n => (Except.ok n : Except Unit Nat)) 2 3
      = if (2 : Int) = 3 then .error .valueError else .ok [] :=
  ⟨by decide,
    process_scene_chunks_step_nonpositive [0, 1, 2]
      (fun n => (Except.ok n : Except Unit Nat)) 2 3 (by decide)⟩

/-- C3 fails as stated: with 3 scenes, chunk_size 2 and overlap 3
(overlap > chunk_size), process_scene_chunks_async silently returns a
result (the empty list) rather than rejecting the configuration with an
error. -/
theorem process_scene_chunks_overlap_gt_silent :
    process_scene_chunks_async [0, 1, 2]
        (fun n => (Except.ok n : Except Unit Nat)) 2 3 = .ok [] := by
  decide

/-- C4: if an analyze call made for a scene of some processed window
fails, the whole run fails: the gather for that window is an error (no
partial chunk results), and process_scene_chunks_async returns an error
(no partial output) wrapping an analyze failure; the deterministic
per-submission structure performs no retry. -/
theorem process_scene_chunks_fail_propagates {σ ε α : Type}
    (scenes : List σ) (f : σ → Except ε α) (chunk_size overlap : Int)
    (hcs : 0 ≤ chunk_size) (hstep : 0 < chunk_size - overlap) (w : List σ)
    (hw : w ∈ specWindows scenes chunk_size.toNat (chunk_size - overlap).toNat)
    (x : σ) (hx : x ∈ w) (e : ε) (he : f x = .error e) :
    (∃ e2, process_chunk f w = .error e2) ∧
    (∃ e3, process_scene_chunks_async scenes f chunk_size overlap
        = .error (.exception e3)) := by
  obtain ⟨e2, h2⟩ := mapE_error_of_mem f w x hx e he
  refine ⟨⟨e2, h2⟩, ?_⟩
  rw [← process_windows_eq scenes chunk_size (chunk_size - overlap) hcs hstep]
    at hw
  obtain ⟨i, hi, hslice⟩ := List.mem_map.mp hw
  have hchunk : process_chunk f
      (pySlice scenes (i : Int)
        (min ((i : Int) + chunk_size) (scenes.length : Int))) = .error e2 := by
    rw [hslice]; exact h2
  obtain ⟨e4, h4⟩ := mapE_error_of_mem
    (fun (i : Nat) => process_chunk f
      (pySlice scenes (i : Int)
        (min ((i : Int) + chunk_size) (scenes.length : Int))))
    (pyRange scenes.length (chunk_size - overlap).toNat) i hi e2 hchunk
  refine ⟨e4, ?_⟩
  unfold process_scene_chunks_async
  simp only [if_neg (show ¬(chunk_size - overlap = 0) by omega),
    if_neg (show ¬(chunk_size - overlap < 0) by omega)]
  rw [h4]

theorem process_scene_chunks_fail_propagates_witness :
    (0 : Int) ≤ 2 ∧ (0 : Int) < 2 - 0 ∧
    [10, 20] ∈ specWindows [10, 20, 30] (2 : Int).toNat ((2 : Int) - 0).toNat ∧
    20 ∈ [10, 20] ∧
    (fun n => if n = 20 then (Except.error () : Except Unit Nat)
      else .ok n) 20 = .error () ∧
    ((∃ e2, process_chunk
        (fun n => if n = 20 then (Except.error () : Except Unit Nat)
          else .ok n) [10, 20] = .error e2) ∧
     (∃ e3, process_scene_chunks_async [10, 20, 30]
        (fun n => if n = 20 then (Except.error () : Except Unit Nat)
          else .ok n) 2 0 = .error (.exception e3))) :=
  ⟨by decide, by decide, by decide, by decide, by decide,
    process_scene_chunks_fail_propagates [10, 20, 30]
      (fun n => if n = 20 then (Except.error () : Except Unit Nat) else .ok n)
      2 0 (by decide) (by decide) [10, 20] (by decide) 20 (by decide) ()
      (by decide)⟩

/-- C10: on the empty scene sequence, any configuration with a positive
step returns the empty sequence without raising; the result is the same
for every analyze callback, including an always-failing one, so no
analyze call is consulted at all. -/
theorem process_scene_chunks_empty {σ ε α : Type} (f : σ → Except ε α)
    (chunk_size overlap : Int) (hstep : 0 < chunk_size - overlap) :
    process_scene_chunks_async ([] : List σ) f chunk_size overlap = .ok [] := by
  unfold process_scene_chunks_async
  have h1 : ¬(chunk_size - overlap = 0) := by omega
  have h2 : ¬(chunk_size - overlap < 0) := by omega
  have h3 : pyRange 0 (chunk_size - overlap).toNat = [] := by
    unfold pyRange
    rw [Nat.zero_add, Nat.div_eq_of_lt (by omega)]
    rfl
  simp only [if_neg h1, if_neg h2, List.length_nil, h3]
  rfl

theorem process_scene_chunks_empty_witness :
    (0 : Int) < 5 - 2 ∧
    process_scene_chunks_async ([] : List Nat)
      (fun _ => (Except.error () : Except Unit Nat)) 5 2 = .ok [] :=
  ⟨by decide,
    process_scene_chunks_empty (fun _ => (Except.error () : Except Unit Nat))
      5 2 (by decide)⟩

/-- C8 (amended): cultural_refs is always a list of strings, and when the
model returned a comma-separated string the normalization yields at most
as many entries as the string has comma-separated components, so the
field has at most three entries whenever the model supplied at most
three components; the code itself enforces no bound (the 0 to 3 limit
lives only in the prompt and schema description). -/
theorem cultural_refs_le_of_components {ε : Type} (scene : Scene)
    (su mo : String) (ch : StrOrList) (s : String)
    (h : (splitCommas s.toList).length ≤ 3) :
    ∃ a, analyze_scene_async scene
        (.ok ⟨su, ch, mo, .str s⟩ : Except ε ChainResult) = .ok a ∧
      a.cultural_refs.length ≤ 3 := by
  refine ⟨_, rfl, ?_⟩
  show (normalize_list_field (.str s)).length ≤ 3
  unfold normalize_list_field
  rw [List.length_map]
  exact le_trans
    (le_trans (List.length_filter_le _ _) (le_of_eq (List.length_map _ _)))
    h

theorem cultural_refs_le_of_components_witness :
    (splitCommas "a, b".toList).length ≤ 3 ∧
    (∃ a, analyze_scene_async ⟨0, 1000, "t"⟩
        (.ok ⟨"s", .list [], "calm", .str "a, b"⟩ : Except Unit ChainResult)
        = .ok a ∧
      a.cultural_refs.length ≤ 3) :=
  ⟨by decide,
    cultural_refs_le_of_components ⟨0, 1000, "t"⟩ "s" "calm" (.list [])
      "a, b" (by decide)⟩

/-- C8 fails as stated: a successful analysis whose model output for
cultural_refs is a comma-separated string of four items normalizes to a
four-element list; the code never truncates to three entries. -/
theorem cultural_refs_four_components :
    ∃ a, analyze_scene_async ⟨0, 1000, "t"⟩
        (.ok ⟨"s", .list [], "calm", .str "a, b, c, d"⟩
          : Except Unit ChainResult) = .ok a ∧
      ¬ a.cultural_refs.length ≤ 3 := by
  refine ⟨_, rfl, ?_⟩
  decide
